import Mathlib

/-!
# Verification of the BFT agreement engine (substrate/bft)

Shallow embedding of `src/substrate/bft/src/lib.rs` together with the pieces of
`src/substrate/codec/src/slicable.rs`, `src/substrate/primitives/src/block.rs`
and `src/substrate/ed25519/src/lib.rs` that it uses.  Machine integers are
modelled as `Nat` with explicit `% 2 ^ w` where the source casts or can wrap;
fallible operations return `Option`/`Except`.  External collaborators (the
blake2-256 hash and the ed25519 primitive implemented in the `ring` crate) are
modelled as parameters respectively as an idealized deterministic signature
scheme.  Parts of the repository that the build depends on but whose sources
are not present (the `generic` agreement module, `primitives::bft`) are
modelled from the specification and are marked as such in their doc comments.
-/

namespace Bft

/-! ## Identities and the idealized signature scheme -/

/-- Authority identifier: `AuthorityId` is the raw 32-byte ed25519 public key;
it is abstracted to a decidable identifier. -/
abbrev AuthorityId := Nat

/-- Model of `ed25519::Public` (src/substrate/ed25519/src/lib.rs): a public key
wrapping its raw authority id. -/
structure Public where
  raw : AuthorityId
deriving DecidableEq

/-- Model of `ed25519::Pair`: a key pair, identified by its secret. -/
structure Pair where
  secret : Nat
deriving DecidableEq

/-- Model of `ed25519::Pair::public`: the unique public key of a pair. -/
def Pair.public (k : Pair) : Public := ⟨k.secret⟩

/-- Modelled from the spec: the concrete ed25519 signature (an `H512` produced
by the external `ring` crate) is idealized as the record of which key signed
which bytes, matching §6 "Signing": a deterministic signature scheme over raw
bytes, attributable to exactly one `AuthorityId`. -/
structure Signature where
  signer : Nat
  message : List Nat
deriving DecidableEq

/-- Model of `ed25519::Pair::sign` under the idealized scheme. -/
def Pair.sign (k : Pair) (message : List Nat) : Signature :=
  ⟨k.secret, message⟩

/-- Model of `ed25519::verify_strong` (src/substrate/ed25519/src/lib.rs) under
the idealized scheme: the signature verifies iff it is `pubkey`'s signature
over exactly `message`. -/
def verify_strong (sig : Signature) (message : List Nat) (pubkey : Public) : Bool :=
  sig.signer == pubkey.raw && sig.message == message

/-- Model of `ed25519::LocalizedSignature` as constructed in
src/substrate/bft/src/lib.rs (`From<PrimitiveJustification>` and
`sign_message`): a claimed signer together with a signature. -/
structure LocalizedSignature where
  signer : Public
  signature : Signature
deriving DecidableEq

/-! ## Codec (src/substrate/codec/src/slicable.rs) -/

/-- Little-endian fixed-width byte encoding used by the codec's
`impl_endians!` (src/substrate/codec/src/slicable.rs): byte `i` holds bits
`8 i .. 8 i + 8` of the value, so widths beyond the type's size are cut off
exactly as the source's fixed-size store does. -/
def encodeLE (w : Nat) (n : Nat) : List Nat :=
  (List.range w).map (fun i => n / 256 ^ i % 256)

/-- Model of `u32::encode`: 4 little-endian bytes. -/
def encodeU32 (n : Nat) : List Nat := encodeLE 4 n

/-- Model of `u64::encode`: 8 little-endian bytes. -/
def encodeU64 (n : Nat) : List Nat := encodeLE 8 n

/-- Model of `u32::decode` (src/substrate/codec/src/slicable.rs): read exactly
4 bytes little-endian; `none` when fewer than 4 bytes are available (the
source's `input.read(raw) != size` failure). -/
def u32_decode : List Nat → Option Nat
  | b0 :: b1 :: b2 :: b3 :: _ => some (b0 + 256 * b1 + 256 ^ 2 * b2 + 256 ^ 3 * b3)
  | _ => none

/-! ## Blocks and headers (src/substrate/primitives/src/block.rs) -/

/-- Model of `HeaderHash = H256`: a 32-byte hash, as its byte list. -/
abbrev HeaderHash := List Nat

/-- Model of `Log` (src/substrate/primitives/src/block.rs). -/
structure Log where
  bytes : List Nat
deriving DecidableEq

/-- Model of `Digest` (src/substrate/primitives/src/block.rs). -/
structure Digest where
  logs : List Log
deriving DecidableEq

/-- Model of `Transaction` (src/substrate/primitives/src/block.rs). -/
structure Transaction where
  bytes : List Nat
deriving DecidableEq

/-- Model of `Header` (src/substrate/primitives/src/block.rs). -/
structure Header where
  parent_hash : HeaderHash
  number : Nat
  state_root : List Nat
  transaction_root : List Nat
  digest : Digest
deriving DecidableEq

/-- Model of `Block` (src/substrate/primitives/src/block.rs). -/
structure Block where
  header : Header
  transactions : List Transaction
deriving DecidableEq

/-- Model of `Vec<u8>::encode`: a `u32` length prefix followed by the bytes. -/
def encodeBytes (b : List Nat) : List Nat :=
  encodeU32 b.length ++ b

/-- Model of `Digest::encode`: the encoded vector of logs (each log a byte
vector). -/
def Digest.encode (d : Digest) : List Nat :=
  encodeU32 d.logs.length ++ (d.logs.map (fun l => encodeBytes l.bytes)).flatten

/-- Model of `Header::encode` (src/substrate/primitives/src/block.rs): the
concatenation of the encoded fields; an `H256` encodes as its raw 32 bytes and
the number as a little-endian `u64`. -/
def Header.encode (h : Header) : List Nat :=
  h.parent_hash ++ encodeU64 h.number ++ h.state_root ++ h.transaction_root
    ++ h.digest.encode

/-- Model of `Block::encode`: the encoded header followed by the encoded
transaction vector. -/
def Block.encode (b : Block) : List Nat :=
  b.header.encode ++ encodeU32 b.transactions.length
    ++ (b.transactions.map (fun t => encodeBytes t.bytes)).flatten

/-- Modelled from the spec: `Header::hash` (implemented in `primitives`, not
under src/) is the blake2-256 digest of the encoded header; the hash primitive
itself is the external parameter `blake`. -/
def Header.hash (blake : List Nat → List Nat) (h : Header) : HeaderHash :=
  blake h.encode

/-! ## BFT primitives (`primitives::bft`, modelled from the spec) -/

/-- Modelled from the spec: `primitives::bft::Action` (not under src/), the
action carried by a signed message, as used in src/substrate/bft/src/lib.rs —
`ProposeHeader`, `Propose`, `Prepare`, `Commit`, `AdvanceRound`, each holding
the `u32` round number (call sites cast with `as u32`). -/
inductive PrimitiveAction
  | ProposeHeader (round : Nat) (hash : HeaderHash)
  | Propose (round : Nat) (block : Block)
  | Prepare (round : Nat) (hash : HeaderHash)
  | Commit (round : Nat) (hash : HeaderHash)
  | AdvanceRound (round : Nat)
deriving DecidableEq

/-- Modelled from the spec: `primitives::bft::Message` — "the exact signed
message bytes as (parent_hash, action)" (§4.2). -/
structure PrimitiveMessage where
  parent : HeaderHash
  action : PrimitiveAction
deriving DecidableEq

/-- Modelled from the spec: the codec encoding of an `Action` — a variant tag
byte, then the round as a little-endian `u32`, then the payload bytes. -/
def PrimitiveAction.encode : PrimitiveAction → List Nat
  | .ProposeHeader r h => 1 :: (encodeU32 r ++ h)
  | .Propose r b => 2 :: (encodeU32 r ++ b.encode)
  | .Prepare r h => 3 :: (encodeU32 r ++ h)
  | .Commit r h => 4 :: (encodeU32 r ++ h)
  | .AdvanceRound r => 5 :: encodeU32 r

/-- Modelled from the spec: `Slicable::encode` of a `primitives::bft::Message`
— the parent hash bytes followed by the encoded action (§4.2: "the exact
signed message bytes as (parent_hash, action)"). -/
def PrimitiveMessage.encode (m : PrimitiveMessage) : List Nat :=
  m.parent ++ m.action.encode

/-! ## Quorum arithmetic (src/substrate/bft/src/lib.rs) -/

/-- Model of `max_faulty_of` (src/substrate/bft/src/lib.rs, lines 390-392):
`n.saturating_sub(1) / 3`; `Nat` subtraction saturates at zero exactly like
`saturating_sub`. -/
def max_faulty_of (n : Nat) : Nat := (n - 1) / 3

/-! ## Justifications (`generic` module, modelled from the spec) -/

/-- Modelled from the spec: `generic::UncheckedJustification` (the `generic`
module is not under src/) as converted to and from `PrimitiveJustification` in
src/substrate/bft/src/lib.rs: the claimed round, the attested digest and the
collected signatures. -/
structure UncheckedJustification where
  round_number : Nat
  digest : HeaderHash
  signatures : List LocalizedSignature
deriving DecidableEq

/-- Modelled from the spec: `generic::Justification`, the checked certificate
wrapping the underlying data (§3 "Justification"). -/
structure Justification where
  unchecked : UncheckedJustification
deriving DecidableEq

/-- First-occurrence deduplication, parameterized by the set of already seen
ids (the `voted` hash set of the spec's description). -/
def dedupFirstAux (seen : List AuthorityId) : List AuthorityId → List AuthorityId
  | [] => []
  | a :: l => if a ∈ seen then dedupFirstAux seen l else a :: dedupFirstAux (a :: seen) l

/-- First-occurrence deduplication of recovered authorities: keeps the first
occurrence of each id, so later signatures by the same authority do not add to
the count (§4.2 "only the first valid signature per authority counts"). -/
def dedupFirst (l : List AuthorityId) : List AuthorityId :=
  dedupFirstAux [] l

/-- Modelled from the spec: `generic::UncheckedJustification::check` (§4.2).
A signature contributes exactly when `check_message` recovers an authority
from it (it returns `none` on an invalid signature or unknown signer); only
the first valid signature per authority counts toward the quorum; the check
succeeds iff the count of valid distinct-authority signatures reaches
`threshold`, and on failure the unchecked justification is returned
unchanged. -/
def UncheckedJustification.check (just : UncheckedJustification) (threshold : Nat)
    (check_message : Nat → HeaderHash → LocalizedSignature → Option AuthorityId) :
    Except UncheckedJustification Justification :=
  let voters :=
    dedupFirst (just.signatures.filterMap (check_message just.round_number just.digest))
  if threshold ≤ voters.length then .ok ⟨just⟩ else .error just

/-! ## Justification checking (src/substrate/bft/src/lib.rs, lines 394-437) -/

/-- Model of the verification closure inside
`check_justification_signed_message` (lib.rs, lines 397-406): a signature
recovers its signer iff the claimed signer is listed in `authorities` and
`verify_strong` accepts the signature on `message`; otherwise it counts
nothing. -/
def check_message_signature (authorities : List AuthorityId) (message : List Nat)
    (sig : LocalizedSignature) : Option AuthorityId :=
  let auth_id := sig.signer.raw
  if auth_id ∉ authorities then none
  else if verify_strong sig.signature message sig.signer then some sig.signer.raw
  else none

/-- Model of `check_justification_signed_message` (lib.rs, lines 394-407):
check with threshold `authorities.len() - max_faulty_of(authorities.len())`
and the closure above. -/
def check_justification_signed_message (authorities : List AuthorityId)
    (message : List Nat) (just : UncheckedJustification) :
    Except UncheckedJustification Justification :=
  just.check (authorities.length - max_faulty_of authorities.length)
    (fun _ _ sig => check_message_signature authorities message sig)

/-- The signed bytes `check_justification` recomputes (lib.rs, lines 416-419):
the encoded message for `Commit(round_number as u32, digest)` against
`parent`. -/
def commit_message (parent : HeaderHash) (round_number : Nat)
    (digest : HeaderHash) : List Nat :=
  PrimitiveMessage.encode ⟨parent, .Commit (round_number % 2 ^ 32) digest⟩

/-- The signed bytes `check_prepare_justification` recomputes (lib.rs, lines
431-434). -/
def prepare_message (parent : HeaderHash) (round_number : Nat)
    (digest : HeaderHash) : List Nat :=
  PrimitiveMessage.encode ⟨parent, .Prepare (round_number % 2 ^ 32) digest⟩

/-- Model of `check_justification` (lib.rs, lines 413-422): recompute the
signed bytes from the justification's own claimed round and digest, then
check the signatures against those bytes. -/
def check_justification (authorities : List AuthorityId) (parent : HeaderHash)
    (just : UncheckedJustification) : Except UncheckedJustification Justification :=
  let message := commit_message parent just.round_number just.digest
  check_justification_signed_message authorities message just

/-- Model of `check_prepare_justification` (lib.rs, lines 428-437): as
`check_justification` but over the `Prepare` action. -/
def check_prepare_justification (authorities : List AuthorityId) (parent : HeaderHash)
    (just : UncheckedJustification) : Except UncheckedJustification Justification :=
  let message := prepare_message parent just.round_number just.digest
  check_justification_signed_message authorities message just

/-! ## Messages and signing (src/substrate/bft/src/lib.rs, lines 440-485) -/

/-- Model of `generic::Vote` as used by `sign_message` (lib.rs, lines
471-476). -/
inductive Vote
  | Prepare (round : Nat) (hash : HeaderHash)
  | Commit (round : Nat) (hash : HeaderHash)
  | AdvanceRound (round : Nat)
deriving DecidableEq

/-- Model of `generic::Message`: a proposal or a vote. -/
inductive Message
  | Propose (round : Nat) (proposal : Block)
  | Vote (vote : Vote)
deriving DecidableEq

/-- Model of `generic::LocalizedProposal` as built by `sign_message` (lib.rs,
lines 462-469). -/
structure LocalizedProposal where
  round_number : Nat
  proposal : Block
  digest : HeaderHash
  sender : AuthorityId
  digest_signature : LocalizedSignature
  full_signature : LocalizedSignature
deriving DecidableEq

/-- Model of `generic::LocalizedVote` as built by `sign_message` (lib.rs,
lines 478-482). -/
structure LocalizedVote where
  vote : Vote
  sender : AuthorityId
  signature : LocalizedSignature
deriving DecidableEq

/-- Model of `generic::LocalizedMessage`. -/
inductive LocalizedMessage
  | Propose (p : LocalizedProposal)
  | Vote (v : LocalizedVote)
deriving DecidableEq

/-- Model of the `sign_action` closure inside `sign_message` (lib.rs, lines
443-454): encode `(parent_hash, action)` and sign those bytes with `key`. -/
def sign_action (key : Pair) (parent_hash : HeaderHash)
    (action : PrimitiveAction) : LocalizedSignature :=
  let to_sign := PrimitiveMessage.encode ⟨parent_hash, action⟩
  { signer := key.public, signature := key.sign to_sign }

/-- Model of `sign_message` (lib.rs, lines 440-485).  Round numbers are cast
`as u32` at each use, hence the `% 2 ^ 32`; the header hash of a proposal is
the external `blake` digest of its encoding. -/
def sign_message (blake : List Nat → List Nat) (message : Message) (key : Pair)
    (parent_hash : HeaderHash) : LocalizedMessage :=
  match message with
  | .Propose r proposal =>
    let header_hash := proposal.header.hash blake
    let action_header := PrimitiveAction.ProposeHeader (r % 2 ^ 32) header_hash
    let action_propose := PrimitiveAction.Propose (r % 2 ^ 32) proposal
    .Propose
      { round_number := r
      , proposal := proposal
      , digest := header_hash
      , sender := key.public.raw
      , digest_signature := sign_action key parent_hash action_header
      , full_signature := sign_action key parent_hash action_propose }
  | .Vote vote =>
    let action := match vote with
      | .Prepare r h => PrimitiveAction.Prepare (r % 2 ^ 32) h
      | .Commit r h => PrimitiveAction.Commit (r % 2 ^ 32) h
      | .AdvanceRound r => PrimitiveAction.AdvanceRound (r % 2 ^ 32)
    .Vote
      { vote := vote
      , sender := key.public.raw
      , signature := sign_action key parent_hash action }

/-- Model of the test helper `sign_vote` (lib.rs tests, lines 560-565): sign a
vote and project the localized signature (the proposal branch is unreachable
for vote inputs; it projects the full signature so the function is total). -/
def sign_vote (vote : Vote) (key : Pair) (parent_hash : HeaderHash) :
    LocalizedSignature :=
  match sign_message (fun h => h) (.Vote vote) key parent_hash with
  | .Vote v => v.signature
  | .Propose p => p.full_signature

/-- The distinct valid commit voters that `check_justification` counts: the
signers recovered by the lib.rs closure against the recomputed commit bytes,
first-occurrence deduplicated. -/
def valid_commit_voters (authorities : List AuthorityId) (parent : HeaderHash)
    (just : UncheckedJustification) : List AuthorityId :=
  dedupFirst (just.signatures.filterMap
    (check_message_signature authorities
      (commit_message parent just.round_number just.digest)))

/-- The distinct valid prepare voters that `check_prepare_justification`
counts. -/
def valid_prepare_voters (authorities : List AuthorityId) (parent : HeaderHash)
    (just : UncheckedJustification) : List AuthorityId :=
  dedupFirst (just.signatures.filterMap
    (check_message_signature authorities
      (prepare_message parent just.round_number just.digest)))

/-- The honest justification of the round-trip scenario (mirrors the
`justification_check_works` test, lib.rs lines 632-638): each key signs
`Vote::Commit (round, digest)` against `parent`. -/
def honest_commit_justification (keys : List Pair) (round : Nat)
    (digest : HeaderHash) (parent : HeaderHash) : UncheckedJustification :=
  { round_number := round
  , digest := digest
  , signatures := keys.map (fun k => sign_vote (.Commit round digest) k parent) }

/-! ## Round proposer and timeouts (src/substrate/bft/src/lib.rs, 187-219) -/

/-- Model of `BftInstance::round_proposer` (lib.rs, lines 187-202): fold
`blake2_256` over the parent hash `round + 1` times, decode the first 4 bytes
of the result as a little-endian `u32`, and index the authority list by it
modulo the list length.  The `none` cases model the two panics: a decode of a
hash shorter than 4 bytes (the `expect`) and the out-of-range index produced
by `% 0` on an empty authority list. -/
def round_proposer (blake : List Nat → List Nat) (parent_hash : HeaderHash)
    (authorities : List AuthorityId) (round : Nat) : Option AuthorityId :=
  let hashed := (List.range (round + 1)).foldl (fun a _ => blake a) parent_hash
  match u32_decode hashed with
  | none => none
  | some index => authorities.get? (index % authorities.length)

/-- Model of `u64::checked_shl`: `none` iff the shift amount is at least the
bit width; otherwise the shifted value, truncated to 64 bits. -/
def checked_shl_u64 (x s : Nat) : Option Nat :=
  if 64 ≤ s then none else some (x * 2 ^ s % 2 ^ 64)

/-- Model of `u64::saturating_mul`: the product, capped at `u64::MAX`. -/
def saturating_mul_u64 (x y : Nat) : Nat := min (x * y) (2 ^ 64 - 1)

/-- Model of the timeout duration (in seconds) computed by
`BftInstance::begin_round_timeout` (lib.rs, lines 208-219): cap the round at
63, shift `1u64` left by it (checked, falling back to `u64::MAX`), and
multiply by the multiplier, saturating. -/
def round_timeout_duration (round_timeout_multiplier : Nat) (round : Nat) : Nat :=
  let r := min 63 round
  saturating_mul_u64 ((checked_shl_u64 1 r).getD (2 ^ 64 - 1))
    round_timeout_multiplier

/-! ## Agreement lifecycle (src/substrate/bft/src/lib.rs, lines 240-386) -/

/-- Model of `AgreementHandle` (lib.rs, lines 285-288): the shared cancel flag
value and whether the task receiver is still held. -/
structure AgreementHandle where
  cancel : Bool
  has_task : Bool
deriving DecidableEq

/-- The live-instance table `live_agreements : HashMap<HeaderHash,
AgreementHandle>`, modelled as an association list. -/
abbrev LiveAgreements := List (HeaderHash × AgreementHandle)

/-- Model of `HashMap::remove`: drop the entry with the given key. -/
def mapRemove (m : LiveAgreements) (k : HeaderHash) : LiveAgreements :=
  m.filter (fun p => p.1 ≠ k)

/-- Model of `HashMap::insert`: the new binding replaces any previous one. -/
def mapInsert (m : LiveAgreements) (k : HeaderHash) (v : AgreementHandle) :
    LiveAgreements :=
  (k, v) :: mapRemove m k

/-- Model of `HashMap::contains_key`. -/
def mapContains (m : LiveAgreements) (k : HeaderHash) : Bool :=
  m.any (fun p => p.1 == k)

/-- Model of the `BftService` fields that `build_upon` reads: the live
instance table, the signing key and the timeout multiplier (the client,
executor and factory are external collaborators whose call results are passed
to `build_upon` explicitly). -/
structure BftServiceState where
  live_agreements : LiveAgreements
  key : Pair
  round_timeout_multiplier : Nat
deriving DecidableEq

/-- Model of the `BftInstance` value built by `build_upon` (lib.rs, lines
345-352): the signing key, the resolved authorities, the new block's hash as
parent hash and the timeout multiplier (the timer and proposer are external
collaborators). -/
structure BftInstanceState where
  key : Pair
  authorities : List AuthorityId
  parent_hash : HeaderHash
  round_timeout_multiplier : Nat
deriving DecidableEq

/-- The agreement started by `build_upon`, as passed to `generic::agree`
(lib.rs, lines 354-360): the instance plus the `n` and `max_faulty`
arguments. -/
structure StartedAgreement where
  inst : BftInstanceState
  n : Nat
  max_faulty : Nat
deriving DecidableEq

/-- The visible outcome of a successful `build_upon` call: the updated live
table and the agreement started, if any. -/
structure BuildUponOutcome where
  live : LiveAgreements
  started : Option StartedAgreement
deriving DecidableEq

/-- Model of `BftService::build_upon` (lib.rs, lines 327-385).  The results of
the external calls are passed in: `authorities_result` for
`client.authorities(&BlockId::Hash(hash))`, `init_result` for
`factory.init(..)` and `execute_result` for `executor.execute(..)` (error
payloads are collapsed to `Unit`; no claim inspects them).  Mirrors the
source's order: resolve authorities (propagating failure), return early with
only `live_agreements.remove(&header.parent_hash)` when the local key is not
an authority, otherwise construct the instance, spawn it (propagating
failure), insert the new handle keyed by the header's hash and remove the
handle keyed by `header.parent_hash`. -/
def build_upon (blake : List Nat → List Nat) (st : BftServiceState)
    (header : Header) (authorities_result : Except Unit (List AuthorityId))
    (init_result : Except Unit Unit) (execute_result : Except Unit Unit) :
    Except Unit BuildUponOutcome :=
  let hash := header.hash blake
  match authorities_result with
  | .error e => .error e
  | .ok authorities =>
    let n := authorities.length
    let max_faulty := max_faulty_of n
    let local_id := st.key.public.raw
    if local_id ∉ authorities then
      .ok { live := mapRemove st.live_agreements header.parent_hash
          , started := none }
    else
      match init_result with
      | .error e => .error e
      | .ok _ =>
        let bft_instance : BftInstanceState :=
          { key := st.key
          , authorities := authorities
          , parent_hash := hash
          , round_timeout_multiplier := st.round_timeout_multiplier }
        match execute_result with
        | .error _ => .error ()
        | .ok _ =>
          let live1 := mapInsert st.live_agreements hash
            { cancel := false, has_task := true }
          let live2 := mapRemove live1 header.parent_hash
          .ok { live := live2
              , started := some { inst := bft_instance, n := n, max_faulty := max_faulty } }

/-! ## The agreement future (src/substrate/bft/src/lib.rs, lines 240-274) -/

/-- Modelled from the spec: `generic::Committed` (§3) — the optional candidate
block and the justification; `candidate` is `None` exactly when the committed
digest was never locally observed as a full block. -/
structure Committed where
  candidate : Option Block
  justification : Justification
deriving DecidableEq

/-- The two constructors of `futures::Async`: a finished value or not ready
yet. -/
inductive Async (α : Type)
  | NotReady
  | Ready (value : α)
deriving DecidableEq

/-- Model of the state a `BftFuture` poll starts from: the shared cancel
flag's current value and whether the oneshot task sender is still unsent. -/
structure BftFutureState where
  cancel : Bool
  send_task : Bool
deriving DecidableEq

deriving instance DecidableEq for Except

/-- Everything one `BftFuture::poll` call does: its return value, whether the
current task was sent to the service, whether the inner agreement state
machine was polled, and the `import_block` invocations made. -/
structure PollEffects where
  result : Except Unit (Async Unit)
  task_sent : Bool
  polled_inner : Bool
  imports : List (Block × Justification)
deriving DecidableEq

/-- Model of `BftFuture::poll` (lib.rs, lines 253-274).  The inner agreement's
poll outcome is passed in as `inner`.  The source first takes and sends the
task sender, then bails out immediately when the cancel flag is set (without
polling the inner state machine), then propagates the inner poll through
`try_ready!` and, on a committed outcome, calls `import_block` precisely when
the candidate was locally observed. -/
def BftFuture.poll (st : BftFutureState)
    (inner : Except Unit (Async Committed)) : PollEffects :=
  let task_sent := st.send_task
  if st.cancel then
    { result := .ok (.Ready ()), task_sent := task_sent
    , polled_inner := false, imports := [] }
  else
    match inner with
    | .error _ =>
      { result := .error (), task_sent := task_sent
      , polled_inner := true, imports := [] }
    | .ok .NotReady =>
      { result := .ok .NotReady, task_sent := task_sent
      , polled_inner := true, imports := [] }
    | .ok (.Ready committed) =>
      match committed.candidate with
      | some justified_block =>
        { result := .ok (.Ready ()), task_sent := task_sent
        , polled_inner := true
        , imports := [(justified_block, committed.justification)] }
      | none =>
        { result := .ok (.Ready ()), task_sent := task_sent
        , polled_inner := true, imports := [] }

/-! ## Concrete scenario used by witnesses and counterexamples -/

/-- A degenerate stand-in for blake2-256 producing a fixed 1-byte digest;
enough to drive `build_upon`, whose behaviour only compares hashes. -/
def cexBlake : List Nat → List Nat := fun _ => [2]

/-- A stand-in for blake2-256 producing a fixed 4-byte digest, long enough
for `round_proposer` to decode an index from it. -/
def cexBlake4 : List Nat → List Nat := fun _ => [0, 0, 0, 0]

/-- A concrete header whose parent hash is `[1]`. -/
def cexHeader : Header :=
  { parent_hash := [1], number := 0, state_root := [], transaction_root := []
  , digest := ⟨[]⟩ }

/-- A concrete service state with live handles keyed by `[2]` (which is
`cexHeader.hash cexBlake`, the header's own hash) and by `[1]` (the header's
parent hash), signing with key 5. -/
def cexState : BftServiceState :=
  { live_agreements := [([2], ⟨false, true⟩), ([1], ⟨false, true⟩)]
  , key := ⟨5⟩, round_timeout_multiplier := 4 }

/-- The instance `build_upon` creates in the preemption scenario (authorities
`[5, 7]`, hashing with `cexBlake`). -/
def cexInstPreempt : BftInstanceState :=
  { key := ⟨5⟩, authorities := [5, 7], parent_hash := [2]
  , round_timeout_multiplier := 4 }

/-- The outcome of the preemption scenario. -/
def cexOutPreempt : BuildUponOutcome :=
  { live := [([2], ⟨false, true⟩)]
  , started := some { inst := cexInstPreempt, n := 2, max_faulty := 0 } }

/-- The instance `build_upon` creates when hashing with `cexBlake4`. -/
def cexInstTotal : BftInstanceState :=
  { key := ⟨5⟩, authorities := [5, 7], parent_hash := [0, 0, 0, 0]
  , round_timeout_multiplier := 4 }

/-- The started agreement of the `cexBlake4` scenario. -/
def cexStartedTotal : StartedAgreement :=
  { inst := cexInstTotal, n := 2, max_faulty := 0 }

/-- The outcome of the `cexBlake4` scenario. -/
def cexOutTotal : BuildUponOutcome :=
  { live := [([0, 0, 0, 0], ⟨false, true⟩), ([2], ⟨false, true⟩)]
  , started := some cexStartedTotal }

/-- A concrete block on top of `cexHeader`. -/
def cexBlock : Block := ⟨cexHeader, []⟩

/-- A concrete (empty) justification value. -/
def cexJustification : Justification := ⟨⟨0, [], []⟩⟩

/-- A committed outcome whose candidate was locally observed. -/
def cexCommitted : Committed :=
  { candidate := some cexBlock, justification := cexJustification }

/-- A committed outcome whose candidate was never locally observed. -/
def cexCommittedNone : Committed :=
  { candidate := none, justification := cexJustification }

/-! ## Theorems -/

/-! ### Helper lemmas -/

theorem dedupFirstAux_of_nodup :
    ∀ (l seen : List AuthorityId), l.Nodup → (∀ a ∈ l, a ∉ seen) →
      dedupFirstAux seen l = l := by
  intro l
  induction l with
  | nil => intro seen _ _; rfl
  | cons a l ih =>
    intro seen hnd hdis
    simp only [dedupFirstAux]
    rw [if_neg (hdis a (List.mem_cons_self a l))]
    congr 1
    refine ih (a :: seen) (List.nodup_cons.mp hnd).2 ?_
    intro b hb hbseen
    rcases List.mem_cons.mp hbseen with h | h
    · exact (List.nodup_cons.mp hnd).1 (h ▸ hb)
    · exact hdis b (List.mem_cons_of_mem a hb) h

theorem dedupFirst_of_nodup (l : List AuthorityId) (h : l.Nodup) :
    dedupFirst l = l :=
  dedupFirstAux_of_nodup l [] h (fun a _ => List.not_mem_nil a)

theorem foldl_range_iterate (f : List Nat → List Nat) (n : Nat) (x : List Nat) :
    (List.range n).foldl (fun a _ => f a) x = f^[n] x := by
  induction n with
  | zero => rfl
  | succ n ih =>
    rw [List.range_succ, List.foldl_append, ih, Function.iterate_succ_apply']
    rfl

theorem encodeU32_eq (n : Nat) :
    encodeU32 n = [n % 256, n / 256 % 256, n / 256 ^ 2 % 256, n / 256 ^ 3 % 256] := by
  simp [encodeU32, encodeLE, List.range_succ]

theorem u32_decode_encodeU32_append (n : Nat) (rest : List Nat) :
    u32_decode (encodeU32 n ++ rest) = some (n % 2 ^ 32) := by
  rw [encodeU32_eq]
  simp only [List.cons_append, List.nil_append, u32_decode, Option.some.injEq]
  norm_num
  omega

theorem commit_message_round_inj (parent D : HeaderHash) (r R : Nat)
    (h : commit_message parent r D = commit_message parent R D) :
    r % 2 ^ 32 = R % 2 ^ 32 := by
  unfold commit_message PrimitiveMessage.encode PrimitiveAction.encode at h
  have h2 := List.append_cancel_left h
  injection h2 with _ h3
  have h4 := congrArg u32_decode h3
  rw [u32_decode_encodeU32_append, u32_decode_encodeU32_append] at h4
  injection h4 with h5
  omega

theorem sign_vote_commit_eq (r : Nat) (D : HeaderHash) (k : Pair)
    (parent : HeaderHash) :
    sign_vote (.Commit r D) k parent
      = ⟨k.public, k.sign (commit_message parent r D)⟩ := rfl

theorem check_message_signature_sign (authorities : List AuthorityId)
    (message : List Nat) (k : Pair) (hk : k.public.raw ∈ authorities) :
    check_message_signature authorities message ⟨k.public, k.sign message⟩
      = some k.public.raw := by
  have hk' : k.secret ∈ authorities := hk
  simp [check_message_signature, verify_strong, Pair.sign, Pair.public, hk']

theorem filterMap_honest_commit (authorities : List AuthorityId)
    (parent : HeaderHash) (r : Nat) (D : HeaderHash) :
    ∀ keys : List Pair, (∀ k ∈ keys, k.public.raw ∈ authorities) →
      (keys.map (fun k => sign_vote (.Commit r D) k parent)).filterMap
          (check_message_signature authorities (commit_message parent r D))
        = keys.map (fun k => k.public.raw) := by
  intro keys
  induction keys with
  | nil => intro _; rfl
  | cons k ks ih =>
    intro hsub
    simp only [List.map_cons, List.filterMap_cons, sign_vote_commit_eq,
      check_message_signature_sign authorities (commit_message parent r D) k
        (hsub k (List.mem_cons_self k ks))]
    exact congrArg (List.cons k.public.raw)
      (ih (fun k' hk' => hsub k' (List.mem_cons_of_mem k hk')))

theorem valid_commit_voters_honest (authorities : List AuthorityId)
    (parent : HeaderHash) (r : Nat) (D : HeaderHash) (keys : List Pair)
    (hsub : ∀ k ∈ keys, k.public.raw ∈ authorities)
    (hnd : (keys.map (fun k => k.public.raw)).Nodup) :
    valid_commit_voters authorities parent
        (honest_commit_justification keys r D parent)
      = keys.map (fun k => k.public.raw) := by
  show dedupFirst ((keys.map (fun k => sign_vote (.Commit r D) k parent)).filterMap
      (check_message_signature authorities (commit_message parent r D)))
    = keys.map (fun k => k.public.raw)
  rw [filterMap_honest_commit authorities parent r D keys hsub]
  exact dedupFirst_of_nodup _ hnd

theorem mapContains_insert_self (m : LiveAgreements) (k : HeaderHash)
    (v : AgreementHandle) : mapContains (mapInsert m k v) k = true := by
  simp [mapInsert, mapContains]

theorem mapContains_remove_self (m : LiveAgreements) (k : HeaderHash) :
    mapContains (mapRemove m k) k = false := by
  induction m with
  | nil => rfl
  | cons p ps ih =>
    show mapContains (List.filter _ (p :: ps)) k = false
    rw [List.filter_cons]
    by_cases hp : p.1 = k
    · rw [if_neg (by simp [hp])]
      exact ih
    · rw [if_pos (by simp [hp])]
      show (p.1 == k || mapContains (mapRemove ps k) k) = false
      rw [ih, show (p.1 == k) = false from beq_eq_false_iff_ne.mpr hp]
      rfl

theorem mapContains_remove_ne (m : LiveAgreements) (k k' : HeaderHash)
    (h : k' ≠ k) : mapContains (mapRemove m k) k' = mapContains m k' := by
  induction m with
  | nil => rfl
  | cons p ps ih =>
    show mapContains (List.filter _ (p :: ps)) k' = mapContains (p :: ps) k'
    rw [List.filter_cons]
    by_cases hp : p.1 = k
    · rw [if_neg (by simp [hp])]
      show mapContains (mapRemove ps k) k' = mapContains (p :: ps) k'
      rw [ih]
      show mapContains ps k' = (p.1 == k' || mapContains ps k')
      rw [show (p.1 == k') = false from
        beq_eq_false_iff_ne.mpr (fun e => h (hp ▸ e).symm)]
      rfl
    · rw [if_pos (by simp [hp])]
      show (p.1 == k' || mapContains (mapRemove ps k) k')
        = (p.1 == k' || mapContains ps k')
      rw [ih]

theorem length_four_exists (l : List Nat) (h : 4 ≤ l.length) :
    ∃ b0 b1 b2 b3 rest, l = b0 :: b1 :: b2 :: b3 :: rest := by
  rcases l with _ | ⟨b0, _ | ⟨b1, _ | ⟨b2, _ | ⟨b3, rest⟩⟩⟩⟩
  · exact absurd h (by simp)
  · exact absurd h (by simp)
  · exact absurd h (by simp)
  · exact absurd h (by simp)
  · exact ⟨b0, b1, b2, b3, rest, rfl⟩

theorem round_proposer_isSome (blake : List Nat → List Nat)
    (parent_hash : HeaderHash) (authorities : List AuthorityId) (round : Nat)
    (hne : authorities ≠ []) (h4 : ∀ a, 4 ≤ (blake a).length) :
    (round_proposer blake parent_hash authorities round).isSome = true := by
  simp only [round_proposer]
  rw [foldl_range_iterate]
  have hlen : 4 ≤ (blake^[round + 1] parent_hash).length := by
    rw [Function.iterate_succ_apply']
    exact h4 _
  obtain ⟨b0, b1, b2, b3, rest, hform⟩ := length_four_exists _ hlen
  rw [hform]
  simp only [u32_decode]
  have hpos : 0 < authorities.length := List.length_pos.mpr hne
  rw [List.get?_eq_get (Nat.mod_lt _ hpos)]
  rfl

theorem round_proposer_empty_authorities (blake : List Nat → List Nat)
    (parent_hash : HeaderHash) (round : Nat) :
    round_proposer blake parent_hash [] round = none := by
  simp only [round_proposer]
  cases u32_decode
      ((List.range (round + 1)).foldl (fun a _ => blake a) parent_hash) <;> rfl

theorem check_justification_ite (authorities : List AuthorityId)
    (parent : HeaderHash) (just : UncheckedJustification) :
    check_justification authorities parent just =
      if authorities.length - max_faulty_of authorities.length
          ≤ (valid_commit_voters authorities parent just).length
      then .ok ⟨just⟩ else .error just := rfl

theorem check_prepare_justification_ite (authorities : List AuthorityId)
    (parent : HeaderHash) (just : UncheckedJustification) :
    check_prepare_justification authorities parent just =
      if authorities.length - max_faulty_of authorities.length
          ≤ (valid_prepare_voters authorities parent just).length
      then .ok ⟨just⟩ else .error just := rfl

/-- C1: `check_justification` (and `check_prepare_justification`) returns
`Ok` iff the number of valid signatures from distinct authorities reaches the
quorum `n - max_faulty_of n` where `n` is the authority count; duplicates by
one authority count once and unknown or non-verifying signers count zero (all
captured by `valid_commit_voters` respectively `valid_prepare_voters`); and
the round trip holds: a justification carrying honest `Commit(r, D)`
signatures by at least quorum-many distinct authorities yields `Ok`, while
fewer distinct valid voters than the quorum yields `Err` with the unchecked
justification returned. -/
theorem check_justification_quorum (authorities : List AuthorityId)
    (parent : HeaderHash) :
    (∀ just : UncheckedJustification,
        (check_justification authorities parent just = .ok ⟨just⟩
          ↔ authorities.length - max_faulty_of authorities.length
              ≤ (valid_commit_voters authorities parent just).length)
        ∧ ((valid_commit_voters authorities parent just).length
              < authorities.length - max_faulty_of authorities.length
            → check_justification authorities parent just = .error just)
        ∧ (check_prepare_justification authorities parent just = .ok ⟨just⟩
          ↔ authorities.length - max_faulty_of authorities.length
              ≤ (valid_prepare_voters authorities parent just).length))
    ∧ (∀ (keys : List Pair) (r : Nat) (D : HeaderHash),
        (keys.map (fun k => k.public.raw)).Nodup
        → (∀ k ∈ keys, k.public.raw ∈ authorities)
        → authorities.length - max_faulty_of authorities.length ≤ keys.length
        → check_justification authorities parent
            (honest_commit_justification keys r D parent)
            = .ok ⟨honest_commit_justification keys r D parent⟩) := by
  constructor
  · intro just
    refine ⟨?_, ?_, ?_⟩
    · rw [check_justification_ite]
      by_cases h : authorities.length - max_faulty_of authorities.length
          ≤ (valid_commit_voters authorities parent just).length
      · rw [if_pos h]
        exact ⟨fun _ => h, fun _ => rfl⟩
      · rw [if_neg h]
        exact ⟨fun heq => absurd heq (by simp), fun hle => absurd hle h⟩
    · intro hlt
      rw [check_justification_ite, if_neg (by omega)]
    · rw [check_prepare_justification_ite]
      by_cases h : authorities.length - max_faulty_of authorities.length
          ≤ (valid_prepare_voters authorities parent just).length
      · rw [if_pos h]
        exact ⟨fun _ => h, fun _ => rfl⟩
      · rw [if_neg h]
        exact ⟨fun heq => absurd heq (by simp), fun hle => absurd hle h⟩
  · intro keys r D hnd hsub hq
    rw [check_justification_ite,
      valid_commit_voters_honest authorities parent r D keys hsub hnd,
      if_pos (by simpa using hq)]

/-- Witness for C1: with four authorities (quorum 3), three honest commit
signatures from distinct authorities check out. -/
theorem check_justification_quorum_witness :
    check_justification [1, 2, 3, 4] [9]
        (honest_commit_justification [⟨1⟩, ⟨2⟩, ⟨3⟩] 1 [255] [9])
      = .ok ⟨honest_commit_justification [⟨1⟩, ⟨2⟩, ⟨3⟩] 1 [255] [9]⟩ :=
  (check_justification_quorum [1, 2, 3, 4] [9]).2 [⟨1⟩, ⟨2⟩, ⟨3⟩] 1 [255]
    (by decide) (by decide) (by decide)

/-- C3: a justification whose signatures were all produced over rounds
different from the claimed `round_number` is rejected with the unchecked
justification returned, because the check recomputes the signed bytes from
the claimed round, making every such signature fail verification. -/
theorem check_justification_wrong_round (authorities : List AuthorityId)
    (parent : HeaderHash) (just : UncheckedJustification)
    (hne : authorities ≠ []) (hlt : just.round_number < 2 ^ 32)
    (hsigs : ∀ sig ∈ just.signatures, ∃ (k : Pair) (r : Nat), r < 2 ^ 32
      ∧ r ≠ just.round_number ∧ sig = sign_vote (.Commit r just.digest) k parent) :
    check_justification authorities parent just = .error just := by
  have hvoters : valid_commit_voters authorities parent just = [] := by
    unfold valid_commit_voters
    have hfm : just.signatures.filterMap
        (check_message_signature authorities
          (commit_message parent just.round_number just.digest)) = [] := by
      rw [List.filterMap_eq_nil_iff]
      intro sig hs
      obtain ⟨k, r, hr32, hrne, hsig⟩ := hsigs sig hs
      subst hsig
      rw [sign_vote_commit_eq]
      unfold check_message_signature
      by_cases hmem : k.public.raw ∈ authorities
      · rw [if_neg (not_not_intro hmem)]
        rw [if_neg ?_]
        simp only [verify_strong, Pair.sign, Pair.public, Bool.and_eq_true,
          beq_iff_eq]
        rintro ⟨-, habs⟩
        have := commit_message_round_inj parent just.digest r just.round_number habs
        omega
      · rw [if_pos hmem]
    rw [hfm]
    rfl
  have hn : 0 < authorities.length := List.length_pos.mpr hne
  rw [check_justification_ite, hvoters, if_neg]
  unfold max_faulty_of
  simp only [List.length_nil]
  omega

/-- Witness for C3: one authority, a justification claiming round 0 but
signed over round 1 is rejected. -/
theorem check_justification_wrong_round_witness :
    check_justification [1] []
        { round_number := 0, digest := [255]
        , signatures := [sign_vote (.Commit 1 [255]) ⟨1⟩ []] }
      = .error
        { round_number := 0, digest := [255]
        , signatures := [sign_vote (.Commit 1 [255]) ⟨1⟩ []] } := by
  refine check_justification_wrong_round [1] [] _ (by decide) (by decide) ?_
  intro sig hs
  rw [List.mem_singleton] at hs
  exact ⟨⟨1⟩, 1, by decide, by decide, hs⟩

/-- C2: for every `n`, `max_faulty_of n` equals `(n.saturating_sub(1)) / 3`
and is less than `n / 3 + 1`, with the concrete values
`max_faulty_of 0 = 0`, `3 ↦ 0`, `4 ↦ 1`, `11 ↦ 3`, `99 ↦ 32`, `100 ↦ 33`. -/
theorem max_faulty_of_spec :
    (∀ n : Nat, max_faulty_of n = (n - 1) / 3 ∧ max_faulty_of n < n / 3 + 1)
    ∧ max_faulty_of 0 = 0 ∧ max_faulty_of 3 = 0 ∧ max_faulty_of 4 = 1
    ∧ max_faulty_of 11 = 3 ∧ max_faulty_of 99 = 32 ∧ max_faulty_of 100 = 33 := by
  refine ⟨fun n => ⟨rfl, ?_⟩, rfl, rfl, rfl, rfl, rfl, rfl⟩
  unfold max_faulty_of
  omega

/-- C4: preemption — if a handle keyed by X is live, and `build_upon` is
called with a header Y whose `parent_hash` is X, the local key is an
authority for Y, Y's own hash differs from X (as for any real blake2-256
chain) and the call returns `Ok`, then afterwards the live table contains a
handle keyed by Y's hash, contains none keyed by X, and an agreement was
started. -/
theorem build_upon_preempts (blake : List Nat → List Nat)
    (st : BftServiceState) (header : Header) (auths : List AuthorityId)
    (init_result execute_result : Except Unit Unit) (out : BuildUponOutcome)
    (_hx : mapContains st.live_agreements header.parent_hash = true)
    (hloc : st.key.public.raw ∈ auths)
    (hok : build_upon blake st header (.ok auths) init_result execute_result
      = .ok out)
    (hcol : header.hash blake ≠ header.parent_hash) :
    mapContains out.live (header.hash blake) = true
    ∧ mapContains out.live header.parent_hash = false
    ∧ out.started.isSome = true := by
  simp only [build_upon] at hok
  rw [if_neg (not_not_intro hloc)] at hok
  cases init_result with
  | error e => exact absurd hok (by simp)
  | ok u =>
    cases execute_result with
    | error e => exact absurd hok (by simp)
    | ok u' =>
      simp only [Except.ok.injEq] at hok
      subst hok
      refine ⟨?_, mapContains_remove_self _ _, rfl⟩
      rw [mapContains_remove_ne _ _ _ hcol]
      exact mapContains_insert_self _ _ _

/-- Witness for C4: the concrete preemption scenario — the handle keyed by
the parent hash `[1]` is gone, the one keyed by the new header's hash is
present and an agreement was started. -/
theorem build_upon_preempts_witness :
    mapContains cexOutPreempt.live (cexHeader.hash cexBlake) = true
    ∧ mapContains cexOutPreempt.live cexHeader.parent_hash = false
    ∧ cexOutPreempt.started.isSome = true :=
  build_upon_preempts cexBlake cexState cexHeader [5, 7] (.ok ()) (.ok ())
    cexOutPreempt (by decide) (by decide) (by decide) (by decide)

/-- C5 counterexample: in the non-authority branch the code removes the entry
keyed by `header.parent_hash`, not the one keyed by the header's own hash —
here the local key 5 is not among the authorities `[7]`, the call returns
`Ok`, and the handle keyed by the header's own hash `[2]` is still in the
table (only the `[1] = parent_hash` entry was removed), contradicting the
claim that the handle keyed by the header's own hash is removed. -/
theorem build_upon_non_authority_counterexample :
    build_upon cexBlake cexState cexHeader (.ok [7]) (.ok ()) (.ok ())
        = .ok { live := [([2], ⟨false, true⟩)], started := none }
    ∧ cexHeader.hash cexBlake = [2]
    ∧ mapContains [([2], (⟨false, true⟩ : AgreementHandle))] [2] = true := by
  refine ⟨by decide, rfl, rfl⟩

/-- C5 as amended: when the local signing identity is not among the resolved
authorities, `build_upon` removes any in-flight handle keyed by the header's
`parent_hash` (not by the header's own hash) from the live table, starts no
agreement, and returns `Ok`. -/
theorem build_upon_non_authority (blake : List Nat → List Nat)
    (st : BftServiceState) (header : Header) (auths : List AuthorityId)
    (init_result execute_result : Except Unit Unit)
    (hna : st.key.public.raw ∉ auths) :
    build_upon blake st header (.ok auths) init_result execute_result
      = .ok { live := mapRemove st.live_agreements header.parent_hash
            , started := none } := by
  simp only [build_upon]
  rw [if_pos hna]

/-- Witness for C5 (amended): the concrete non-authority scenario. -/
theorem build_upon_non_authority_witness :
    build_upon cexBlake cexState cexHeader (.ok [7]) (.ok ()) (.ok ())
      = .ok { live := mapRemove cexState.live_agreements cexHeader.parent_hash
            , started := none } :=
  build_upon_non_authority cexBlake cexState cexHeader [7] (.ok ()) (.ok ())
    (by decide)

/-- C10 (implicit): every agreement instance that `build_upon` actually
starts has an authority list containing the local identity, hence non-empty,
so `round_proposer` totalizes on it (given the external hash yields at least
4 bytes, as blake2-256's 32 bytes do); whereas on an empty authority list
`round_proposer` is undefined (the modelled panic `none`). -/
theorem build_upon_round_proposer_total (blake : List Nat → List Nat)
    (st : BftServiceState) (header : Header) (auths : List AuthorityId)
    (init_result execute_result : Except Unit Unit) (out : BuildUponOutcome)
    (s : StartedAgreement)
    (h4 : ∀ a, 4 ≤ (blake a).length)
    (hok : build_upon blake st header (.ok auths) init_result execute_result
      = .ok out)
    (hst : out.started = some s) :
    s.inst.authorities ≠ []
    ∧ st.key.public.raw ∈ s.inst.authorities
    ∧ (∀ round,
        (round_proposer blake s.inst.parent_hash s.inst.authorities round).isSome
          = true)
    ∧ (∀ parent round, round_proposer blake parent [] round = none) := by
  simp only [build_upon] at hok
  by_cases hmem : st.key.public.raw ∉ auths
  · rw [if_pos hmem] at hok
    simp only [Except.ok.injEq] at hok
    subst hok
    exact absurd hst (by simp)
  · rw [if_neg hmem] at hok
    cases init_result with
    | error e => exact absurd hok (by simp)
    | ok u =>
      cases execute_result with
      | error e => exact absurd hok (by simp)
      | ok u' =>
        simp only [Except.ok.injEq] at hok
        subst hok
        simp only [Option.some.injEq] at hst
        subst hst
        rw [not_not] at hmem
        have hne : auths ≠ [] := List.ne_nil_of_mem hmem
        exact ⟨hne, hmem,
          fun round => round_proposer_isSome blake _ auths round hne h4,
          fun parent round => round_proposer_empty_authorities blake parent round⟩

/-- Witness for C10: the concrete scenario with a 4-byte hash function — the
started instance's authorities are non-empty, contain the local key, and the
round proposer is defined at every round. -/
theorem build_upon_round_proposer_total_witness :
    cexStartedTotal.inst.authorities ≠ []
    ∧ cexState.key.public.raw ∈ cexStartedTotal.inst.authorities
    ∧ (∀ round,
        (round_proposer cexBlake4 cexStartedTotal.inst.parent_hash
          cexStartedTotal.inst.authorities round).isSome = true)
    ∧ (∀ parent round, round_proposer cexBlake4 parent [] round = none) :=
  build_upon_round_proposer_total cexBlake4 cexState cexHeader [5, 7]
    (.ok ()) (.ok ()) cexOutTotal cexStartedTotal
    (fun _ => Nat.le_refl 4) (by decide) (by decide)

/-- C6: `round_proposer` is a pure function of the parent hash, the round and
the authority list (it is a Lean function of exactly those arguments, so two
evaluations at the same arguments are definitionally equal); its fold over
`List.range (round + 1)` applies `blake2_256` exactly `round + 1` times
(conjunct 1), the decoder reads the first 4 bytes as a little-endian `u32`
(conjunct 2), and for a non-empty authority list and 4-byte-or-longer hashes
it returns exactly the authority at that `u32` modulo the list length
(conjunct 3). -/
theorem round_proposer_spec (blake : List Nat → List Nat)
    (parent_hash : HeaderHash) (authorities : List AuthorityId) (round : Nat)
    (hne : authorities ≠ []) (h4 : ∀ a, 4 ≤ (blake a).length) :
    ((List.range (round + 1)).foldl (fun a _ => blake a) parent_hash
        = blake^[round + 1] parent_hash)
    ∧ (∀ b0 b1 b2 b3 rest, u32_decode (b0 :: b1 :: b2 :: b3 :: rest)
        = some (b0 + 256 * b1 + 256 ^ 2 * b2 + 256 ^ 3 * b3))
    ∧ ∃ i, u32_decode (blake^[round + 1] parent_hash) = some i
        ∧ round_proposer blake parent_hash authorities round
            = authorities.get? (i % authorities.length)
        ∧ (round_proposer blake parent_hash authorities round).isSome = true := by
  refine ⟨foldl_range_iterate blake (round + 1) parent_hash,
    fun _ _ _ _ _ => rfl, ?_⟩
  have hlen : 4 ≤ (blake^[round + 1] parent_hash).length := by
    rw [Function.iterate_succ_apply']
    exact h4 _
  obtain ⟨b0, b1, b2, b3, rest, hform⟩ := length_four_exists _ hlen
  refine ⟨b0 + 256 * b1 + 256 ^ 2 * b2 + 256 ^ 3 * b3, by rw [hform]; rfl, ?_, ?_⟩
  · simp only [round_proposer]
    rw [foldl_range_iterate, hform]
    rfl
  · exact round_proposer_isSome blake parent_hash authorities round hne h4

/-- Witness for C6: a constant 4-byte hash over two authorities at round 0. -/
theorem round_proposer_spec_witness :
    (round_proposer cexBlake4 [] [7, 8] 0).isSome = true := by
  obtain ⟨-, -, i, -, -, hsome⟩ :=
    round_proposer_spec cexBlake4 [] [7, 8] 0 (by decide) (fun _ => Nat.le_refl 4)
  exact hsome

/-- C7: the round timeout equals `2 ^ min 63 round * multiplier` seconds,
saturating at `u64::MAX` (conjunct 1); the exponent is capped at 63, so the
checked shift itself never fails (conjunct 2); and the timeout is monotone
non-decreasing in the round (conjunct 3). -/
theorem round_timeout_duration_spec :
    (∀ m round, round_timeout_duration m round
        = min (2 ^ min 63 round * m) (2 ^ 64 - 1))
    ∧ (∀ round : Nat, checked_shl_u64 1 (min 63 round) = some (2 ^ min 63 round))
    ∧ (∀ m r r', r ≤ r' →
        round_timeout_duration m r ≤ round_timeout_duration m r') := by
  have hshl : ∀ round : Nat,
      checked_shl_u64 1 (min 63 round) = some (2 ^ min 63 round) := by
    intro round
    have hr : min 63 round < 64 := lt_of_le_of_lt (min_le_left _ _) (by norm_num)
    rw [checked_shl_u64, if_neg (by omega)]
    rw [one_mul, Nat.mod_eq_of_lt (Nat.pow_lt_pow_right (by norm_num) hr)]
  have heq : ∀ m round, round_timeout_duration m round
      = min (2 ^ min 63 round * m) (2 ^ 64 - 1) := by
    intro m round
    rw [round_timeout_duration, hshl round]
    rfl
  refine ⟨heq, hshl, fun m r r' hle => ?_⟩
  rw [heq, heq]
  exact min_le_min
    (Nat.mul_le_mul_right m
      (Nat.pow_le_pow_right (by norm_num) (min_le_min (le_refl 63) hle)))
    (le_refl _)

/-- Witness for C7: with multiplier 4, round 2 times out after 16 seconds and
round 3 no sooner. -/
theorem round_timeout_duration_spec_witness :
    round_timeout_duration 4 2 = 16
    ∧ round_timeout_duration 4 2 ≤ round_timeout_duration 4 3 :=
  ⟨by rw [round_timeout_duration_spec.1 4 2]; decide,
    round_timeout_duration_spec.2.2 4 2 3 (by omega)⟩

/-- C8: a poll that observes the cancel flag set resolves immediately with
`Ready`, does not poll the inner agreement state machine and performs no
`import_block` call, whatever the inner machine would have produced. -/
theorem bft_future_poll_canceled (send_task : Bool)
    (inner : Except Unit (Async Committed)) :
    BftFuture.poll { cancel := true, send_task := send_task } inner
      = { result := .ok (.Ready ()), task_sent := send_task
        , polled_inner := false, imports := [] } := rfl

/-- C9 counterexample: an inner `Committed` outcome whose candidate was never
locally observed (`candidate = none`) resolves the future with `Ready` but
performs no `import_block` call, so the import boundary is not invoked for
every `Committed` outcome. -/
theorem bft_future_poll_none_candidate_counterexample :
    (BftFuture.poll { cancel := false, send_task := false }
        (.ok (.Ready cexCommittedNone))).result = .ok (.Ready ())
    ∧ (BftFuture.poll { cancel := false, send_task := false }
        (.ok (.Ready cexCommittedNone))).imports = [] := ⟨rfl, rfl⟩

/-- C9 as amended: on an uncanceled poll where the inner agreement resolves
`Committed`, the future invokes the block-import boundary with the committed
candidate and its justification exactly when the candidate was locally
observed (`candidate = some b`); when the candidate is `none` the future
still resolves `Ready` but imports nothing. -/
theorem bft_future_poll_commit_import (send_task : Bool) (c : Committed) :
    (∀ b, c.candidate = some b →
      BftFuture.poll { cancel := false, send_task := send_task } (.ok (.Ready c))
        = { result := .ok (.Ready ()), task_sent := send_task
          , polled_inner := true, imports := [(b, c.justification)] })
    ∧ (c.candidate = none →
      BftFuture.poll { cancel := false, send_task := send_task } (.ok (.Ready c))
        = { result := .ok (.Ready ()), task_sent := send_task
          , polled_inner := true, imports := [] }) := by
  constructor
  · intro b hb
    simp [BftFuture.poll, hb]
  · intro hn
    simp [BftFuture.poll, hn]

/-- Witness for C9 (amended): a committed outcome with an observed candidate
block is imported together with its justification. -/
theorem bft_future_poll_commit_import_witness :
    BftFuture.poll { cancel := false, send_task := true }
        (.ok (.Ready cexCommitted))
      = { result := .ok (.Ready ()), task_sent := true
        , polled_inner := true
        , imports := [(cexBlock, cexCommitted.justification)] } :=
  (bft_future_poll_commit_import true cexCommitted).1 cexBlock rfl

end Bft
